import Mathlib

/-
Verification of the FORM-019 search application (form19_search_app.py).

The development shallowly embeds the core pipeline of the application:
  - the fixed regular-expression pattern matcher (RE_AP, RE_ML, RE_MAX_H,
    RE_IMPLANT, RE_LOT, RE_PO) via a small backtracking matcher with
    leftmost-search semantics, case-insensitive literals, greedy
    quantifiers and left-preferring alternation, mirroring the re module
    on the pattern fragments actually used;
  - the PDF scanner (scan_pdf), with a document modelled as its list of
    extracted page texts (the PDF library is an external collaborator
    whose contract is exactly "open -> pages; page text -> string");
  - the threshold filter (_cmp and the ok-flag sequence of scan_pdf);
  - the directory walker (find_form19_pdfs, iter_po_dirs, _gather_pdfs)
    over a filesystem modelled as the list of its file paths, a path
    being the list of its name components;
  - the CSV exporter (results_to_csv, csv.DictWriter with the default
    dialect: comma delimiter, CRLF line terminator, minimal quoting);
  - the background job (_run_job) as the sequence of states the shared
    job entry goes through, one state per lock-guarded update, together
    with the JOBS mapping mutated by the /start handler and the worker.

Numeric measurement values are modelled as rationals: every number the
program manipulates is produced by parsing a decimal literal captured by
a pattern, and the comparisons performed on them (>=, <=) agree with the
rational order on all such values.
-/

-- ===== character and string helpers =====

def lowerChars (s : List Char) : List Char := s.map Char.toLower

/-- Substring containment, the semantics of the Python `in` operator on
strings: the empty pattern is contained in everything. -/
def listContains (pat : List Char) : List Char → Bool
  | [] => pat.isEmpty
  | c :: t => pat.isPrefixOf (c :: t) || listContains pat t

/-- Python regex \s over the ASCII texts the scanner handles. -/
def isSpaceCh (c : Char) : Bool :=
  c == ' ' || c == '\t' || c == '\n' || c == '\r' || c == '\x0b' || c == '\x0c'

/-- Python regex \w (ASCII range), used for the \b word-boundary test. -/
def isWordCh (c : Char) : Bool := c.isAlphanum || c == '_'

-- ===== regular-expression engine =====

/-- Character classes occurring in the six patterns of the source. -/
inductive CharClass where
  | digit
  | space
  | nonspace
  | letter
  | sign

def CharClass.eval : CharClass → Char → Bool
  | .digit, c => c.isDigit
  | .space, c => isSpaceCh c
  | .nonspace, c => !isSpaceCh c
  | .letter, c => c.isAlpha
  | .sign, c => c == '-' || c == '+'

/-- Abstract syntax of the regex fragments used by the source patterns:
literals (matched case-insensitively since every pattern is compiled
with re.I), character classes, sequencing, alternation, greedy star and
option over one-character items, numbered capture groups, and the \b
word boundary. -/
inductive RE where
  | eps
  | ch (c : Char)
  | cls (p : CharClass)
  | seq (a b : RE)
  | alt (a b : RE)
  | starCls (p : CharClass)
  | optCh (c : Char)
  | optCls (p : CharClass)
  | group (n : Nat) (a : RE)
  | wb

/-- Case-insensitive character comparison (re.I). -/
def lowEq (a b : Char) : Bool := a.toLower == b.toLower

def atBoundary (prev : Option Char) (next : Option Char) : Bool :=
  (match prev with | none => false | some c => isWordCh c)
    != (match next with | none => false | some c => isWordCh c)

abbrev Groups := List (Nat × List Char)

/-- Greedy repetition of a one-character class in continuation-passing
style: consume as many class characters as possible, giving characters
back one at a time on failure of the continuation. -/
def starK (p : CharClass) (prev : Option Char) (s : List Char)
    (k : Option Char → List Char → Option α) : Option α :=
  match s with
  | [] => k prev []
  | c :: rest =>
      if p.eval c then
        match starK p (some c) rest k with
        | some r => some r
        | none => k prev (c :: rest)
      else k prev (c :: rest)

/-- Backtracking matcher. The first success in backtracking order is
returned, which reproduces the re module: alternation prefers the left
alternative, option and star are greedy. The character preceding the
remaining input is carried along for the word-boundary test. -/
def reM (r : RE) (prev : Option Char) (s : List Char) (g : Groups)
    (k : Option Char → List Char → Groups → Option β) : Option β :=
  match r with
  | .eps => k prev s g
  | .ch c =>
      match s with
      | [] => none
      | x :: rest => if lowEq x c then k (some x) rest g else none
  | .cls p =>
      match s with
      | [] => none
      | x :: rest => if p.eval x then k (some x) rest g else none
  | .seq a b => reM a prev s g (fun p2 s2 g2 => reM b p2 s2 g2 k)
  | .alt a b =>
      match reM a prev s g k with
      | some res => some res
      | none => reM b prev s g k
  | .starCls p => starK p prev s (fun p2 s2 => k p2 s2 g)
  | .optCh c =>
      match s with
      | x :: rest =>
          if lowEq x c then
            match k (some x) rest g with
            | some res => some res
            | none => k prev (x :: rest) g
          else k prev (x :: rest) g
      | [] => k prev [] g
  | .optCls p =>
      match s with
      | x :: rest =>
          if p.eval x then
            match k (some x) rest g with
            | some res => some res
            | none => k prev (x :: rest) g
          else k prev (x :: rest) g
      | [] => k prev [] g
  | .group n a => reM a prev s g (fun p2 s2 g2 => k p2 s2 ((n, s.take (s.length - s2.length)) :: g2))
  | .wb => if atBoundary prev s.head? then k prev s g else none

structure MatchRes where
  groups : Groups
  matched : List Char
  rest : List Char
  prevAfter : Option Char
deriving DecidableEq

def tryMatch (r : RE) (prev : Option Char) (s : List Char) : Option MatchRes :=
  reM r prev s [] (fun p2 s2 g => some ⟨g, s.take (s.length - s2.length), s2, p2⟩)

/-- re.search semantics: try to match at each start position from left
to right; the leftmost position admitting a match wins. -/
def searchFrom (r : RE) (prev : Option Char) (s : List Char) : Option MatchRes :=
  match tryMatch r prev s with
  | some m => some m
  | none =>
      match s with
      | [] => none
      | c :: rest => searchFrom r (some c) rest

def reSearch (r : RE) (s : List Char) : Option MatchRes := searchFrom r none s

/-- match.group(n): the first (outermost) recorded capture for group n,
empty if the group did not participate. -/
def groupStr (m : MatchRes) (n : Nat) : List Char :=
  match m.groups.find? (fun x => x.1 == n) with
  | some x => x.2
  | none => []

/-- re.findall for a single-group pattern: scan non-overlapping matches
left to right, continuing after the end of each match, and collect the
group-1 captures.  Fuelled by the input length; every pattern this is
applied to consumes at least one character per match. -/
def findallG1 (r : RE) : Nat → Option Char → List Char → List (List Char)
  | 0, _, _ => []
  | fuel + 1, prev, s =>
      match searchFrom r prev s with
      | none => []
      | some m => groupStr m 1 :: (if m.rest.length < s.length then findallG1 r fuel m.prevAfter m.rest else [])

def findall1 (r : RE) (s : List Char) : List (List Char) := findallG1 r (s.length + 1) none s

-- ===== the fixed patterns of the source =====

def rSeq (l : List RE) : RE := l.foldr RE.seq RE.eps

/-- A case-insensitive literal word. -/
def ciLits (s : String) : RE := rSeq (s.data.map RE.ch)

def digitsPlus : RE := .seq (.cls .digit) (.starCls .digit)

/-- FLOAT = [-+]?(?:\d+\.\d+|\d+) -/
def floatRE : RE :=
  .seq (.optCls .sign) (.alt (.seq digitsPlus (.seq (.ch '.') digitsPlus)) digitsPlus)

def wsStar : RE := .starCls .space

def wsPlus : RE := .seq (.cls .space) wsStar

/-- RE_AP: AP\s*Depth\s*"?B"?\s*\(mm\)\s+(F)\s+(F)\s+(F) with re.I -/
def RE_AP : RE :=
  rSeq [ciLits "ap", wsStar, ciLits "depth", wsStar, .optCh '"', .ch 'b', .optCh '"', wsStar,
        .ch '(', ciLits "mm", .ch ')', wsPlus, .group 1 floatRE, wsPlus, .group 2 floatRE,
        wsPlus, .group 3 floatRE]

/-- RE_ML: ML\s*Width\s*"?A"?\s*\(mm\)\s+(F)\s+(F)\s+(F) with re.I -/
def RE_ML : RE :=
  rSeq [ciLits "ml", wsStar, ciLits "width", wsStar, .optCh '"', .ch 'a', .optCh '"', wsStar,
        .ch '(', ciLits "mm", .ch ')', wsPlus, .group 1 floatRE, wsPlus, .group 2 floatRE,
        wsPlus, .group 3 floatRE]

/-- RE_MAX_H: Max\s*Cage\s*Height\s*"?C"?\s*\(mm\)\s+(F)\s+(F)\s+(F) with re.I -/
def RE_MAX_H : RE :=
  rSeq [ciLits "max", wsStar, ciLits "cage", wsStar, ciLits "height", wsStar, .optCh '"',
        .ch 'c', .optCh '"', wsStar, .ch '(', ciLits "mm", .ch ')', wsPlus, .group 1 floatRE,
        wsPlus, .group 2 floatRE, wsPlus, .group 3 floatRE]

/-- RE_IMPLANT: IMPLANT_NAME=([^\s]+) with re.I -/
def RE_IMPLANT : RE :=
  rSeq [ciLits "implant_name", .ch '=', .group 1 (.seq (.cls .nonspace) (.starCls .nonspace))]

/-- RE_LOT: \b\d6\.[A-Z]2\.\??\d2\b with re.I (braces spelled out) -/
def RE_LOT : RE :=
  rSeq [.wb, .cls .digit, .cls .digit, .cls .digit, .cls .digit, .cls .digit, .cls .digit,
        .ch '.', .cls .letter, .cls .letter, .ch '.', .optCh '?', .cls .digit, .cls .digit, .wb]

/-- RE_PO: (PO\d+) with re.I -/
def RE_PO : RE := .group 1 (rSeq [ciLits "po", digitsPlus])

-- ===== numeric parsing (Python float() on captured decimal literals) =====

def digitsToNat (ds : List Char) : Nat := ds.foldl (fun acc c => acc * 10 + (c.toNat - 48)) 0

def parseFloatMag (sgn : Int) (rest : List Char) : Option Rat :=
  if (rest.takeWhile Char.isDigit).isEmpty then none
  else
    match rest.dropWhile Char.isDigit with
    | [] => some (mkRat (sgn * (digitsToNat (rest.takeWhile Char.isDigit) : Int)) 1)
    | '.' :: fr =>
        if fr.isEmpty || !(fr.all Char.isDigit) then none
        else
          some (mkRat
            (sgn * ((digitsToNat (rest.takeWhile Char.isDigit) * 10 ^ fr.length + digitsToNat fr : Nat) : Int))
            (10 ^ fr.length))
    | _ => none

/-- Python float() restricted to the shape of strings the FLOAT pattern
can capture: optional sign, digits, optionally a point and digits.  A
string of any other shape fails (models ValueError). -/
def parseFloatChars (s : List Char) : Option Rat :=
  match s with
  | '-' :: t => parseFloatMag (-1) t
  | '+' :: t => parseFloatMag 1 t
  | t => parseFloatMag 1 t

/-- _parse_three_numbers: None for a failed search, and None as soon as
one of the three captured strings fails numeric conversion. -/
def _parse_three_numbers (m : Option MatchRes) : Option (Rat × Rat × Rat) :=
  match m with
  | none => none
  | some mr =>
      match parseFloatChars (groupStr mr 1), parseFloatChars (groupStr mr 2), parseFloatChars (groupStr mr 3) with
      | some a, some b, some c => some (a, b, c)
      | _, _, _ => none

-- ===== thresholds and the filter =====

structure Thresholds where
  ap_depth_b_mm : Option Rat
  ap_op : String
  ml_width_a_mm : Option Rat
  ml_op : String
  max_cage_height_c_mm : Option Rat
  max_op : String

/-- _cmp: an absent threshold admits; op "<=" tests value <= threshold;
any other op string (the form only produces ">=" and "<=") tests
value >= threshold. -/
def _cmp (value : Rat) (threshold : Option Rat) (op : String) : Bool :=
  match threshold with
  | none => true
  | some t => if op == "<=" then decide (value ≤ t) else decide (t ≤ value)

/-- The ok-flag sequence of the scan_pdf loop body: start from True and
clear the flag on each failing dimension. -/
def rowOk (th : Thresholds) (ap_v ml_v maxh_v : Rat) : Bool :=
  let ok := true
  let ok := if !(_cmp ap_v th.ap_depth_b_mm th.ap_op) then false else ok
  let ok := if !(_cmp ml_v th.ml_width_a_mm th.ml_op) then false else ok
  let ok := if !(_cmp maxh_v th.max_cage_height_c_mm th.max_op) then false else ok
  ok

-- ===== measurement rows and the PDF scanner =====

structure Row where
  po : String
  lot : String
  partType : String
  plan : String
  implantName : String
  ap_depth_b_mm : Rat
  ml_width_a_mm : Rat
  max_cage_height_c_mm : Rat
  pdf : String
deriving DecidableEq, Repr

/-- PLAN_LABELS.get(idx, str(idx)) -/
def PLAN_LABELS (idx : Nat) : String :=
  match idx with
  | 0 => "Minus 01"
  | 1 => "Plan 02"
  | 2 => "Plus 03"
  | _ => toString idx

/-- ap_vals[idx] for idx in (0, 1, 2). -/
def tripGet (t : Rat × Rat × Rat) : Nat → Rat
  | 0 => t.1
  | 1 => t.2.1
  | _ => t.2.2

/-- lot = lot_match.group(0) if lot_match else "" -/
def lotOf (text : String) : String :=
  match reSearch RE_LOT text.data with
  | some m => String.mk m.matched
  | none => ""

/-- implant_names[idx] if idx < len(implant_names) else "" where
implant_names = RE_IMPLANT.findall(text) -/
def implantAt (text : String) (idx : Nat) : String :=
  String.mk ((findall1 RE_IMPLANT text.data).getD idx [])

/-- The names of the ancestor directories of a path, nearest first, as
the source iterates them: [pdf_path.parent, *pdf_path.parents], so the
immediate parent occurs twice. -/
def ancestorNames (components : List String) : List String :=
  match components.dropLast.reverse with
  | [] => []
  | h :: t => h :: h :: t

def poFromNames : List String → String
  | [] => ""
  | nm :: rest =>
      match reSearch RE_PO nm.data with
      | some m => String.mk ((groupStr m 1).map Char.toUpper)
      | none => poFromNames rest

/-- _extract_po_from_path with stop_at = None, over the component list
of the file path. -/
def _extract_po_from_path (components : List String) : String :=
  poFromNames (ancestorNames components)

def pathToString (p : List String) : String := String.intercalate "/" p

/-- The row appended for one admitted plan index of one matching page. -/
def mkRow (pdfPath : List String) (part_type : String) (text : String)
    (ap ml mh : Rat × Rat × Rat) (idx : Nat) : Row :=
  { po := _extract_po_from_path pdfPath
    lot := lotOf text
    partType := part_type
    plan := PLAN_LABELS idx
    implantName := implantAt text idx
    ap_depth_b_mm := tripGet ap idx
    ml_width_a_mm := tripGet ml idx
    max_cage_height_c_mm := tripGet mh idx
    pdf := pathToString pdfPath }

/-- The per-page body of the scan_pdf loop: skip the page when the text
is empty, when the part type is absent case-insensitively, or when any
of the three measurement searches fails to produce three numbers; per
index 0, 1, 2 keep the row only when the ok flag survives all three
threshold comparisons. -/
def scanPage (pdfPath : List String) (part_type : String) (th : Thresholds) (text : String) : List Row :=
  if text.data.isEmpty then []
  else if !(listContains (lowerChars part_type.data) (lowerChars text.data)) then []
  else
    match _parse_three_numbers (reSearch RE_AP text.data),
          _parse_three_numbers (reSearch RE_ML text.data),
          _parse_three_numbers (reSearch RE_MAX_H text.data) with
    | some ap, some ml, some mh =>
        [0, 1, 2].filterMap (fun idx =>
          if rowOk th (tripGet ap idx) (tripGet ml idx) (tripGet mh idx)
          then some (mkRow pdfPath part_type text ap ml mh idx) else none)
    | _, _, _ => []

/-- scan_pdf over an already opened document, the document being its
list of extracted page texts; results of consecutive pages are
appended. -/
def scan_pdf (pdfPath : List String) (pages : List String) (part_type : String) (th : Thresholds) : List Row :=
  pages.flatMap (fun t => scanPage pdfPath part_type th t)

-- ===== directory walker over a filesystem of file paths =====

/-- The filesystem as the list of its files; a file is the list of the
name components of its path. -/
abbrev FileSys := List (List String)

def fileName (p : List String) : String := p.getLastD ""

/-- The *.pdf glob of rglob: the final name component ends in ".pdf". -/
def pdfName (p : List String) : Bool := List.isSuffixOf ".pdf".data (fileName p).data

/-- ("form-019" in name_lower) or ("form-19" in name_lower) -/
def hasForm19 (n : String) : Bool :=
  listContains "form-019".data (lowerChars n.data) || listContains "form-19".data (lowerChars n.data)

/-- The path lies strictly below the root directory. -/
def strictlyUnder (root p : List String) : Bool :=
  root.isPrefixOf p && decide (root.length < p.length)

/-- find_form19_pdfs: rglob("*.pdf") below the root, keeping the files
whose lowercase name has one of the two FORM-19 substrings. -/
def find_form19_pdfs (fsys : FileSys) (root : List String) : List (List String) :=
  (fsys.filter (fun p => strictlyUnder root p && pdfName p)).filter (fun p => hasForm19 (fileName p))

/-- iter_po_dirs: the immediate subdirectories of the base directory (in
the file list model, the one-component extensions of the base below
which some file lies). -/
def iter_po_dirs (fsys : FileSys) (base : List String) : List (List String) :=
  (fsys.filterMap (fun p =>
    if strictlyUnder base p && decide (base.length + 1 < p.length)
    then some (p.take (base.length + 1)) else none)).dedup

/-- _gather_pdfs: the FORM-19 pdfs of every purchase-order subfolder. -/
def _gather_pdfs (fsys : FileSys) (base : List String) : List (List String) :=
  (iter_po_dirs fsys base).flatMap (fun d => find_form19_pdfs fsys d)

/-- The walker set named by the specification text alone: every file
below the root whose lowercase name has a FORM-19 substring, with no
condition on the extension. -/
def specNameMatchFiles (fsys : FileSys) (root : List String) : List (List String) :=
  fsys.filter (fun p => strictlyUnder root p && hasForm19 (fileName p))

/-- The scan loop of _run_job restricted to its row output: scan every
gathered pdf and append the rows.  The document contents are supplied by
the external text-extraction collaborator docOf. -/
def runScan (fsys : FileSys) (docOf : List String → List String) (base : List String)
    (part_type : String) (th : Thresholds) : List Row :=
  (_gather_pdfs fsys base).flatMap (fun p => scan_pdf p (docOf p) part_type th)

-- ===== result exporter (csv.DictWriter, default dialect) =====

/-- A field needs quoting when it has the delimiter, the quote char or a
line-terminator character (QUOTE_MINIMAL). -/
def specialChar (c : Char) : Bool := c == ',' || c == '"' || c == '\r' || c == '\n'

/-- Double every quote character. -/
def escapeQuotes : List Char → List Char
  | [] => []
  | c :: cs => if c == '"' then '"' :: '"' :: escapeQuotes cs else c :: escapeQuotes cs

def encodeField (s : List Char) : List Char :=
  if s.any specialChar then '"' :: (escapeQuotes s ++ ['"']) else s

/-- Comma-join the encoded fields of one record. -/
def joinComma : List (List Char) → List Char
  | [] => []
  | [f] => f
  | f :: g :: fs => f ++ ',' :: joinComma (g :: fs)

/-- One CSV record: the joined fields and the CRLF terminator. -/
def encodeRecord (fs : List (List Char)) : List Char :=
  joinComma (fs.map encodeField) ++ ['\r', '\n']

def csvEncodeAll (recs : List (List (List Char))) : List Char :=
  (recs.map encodeRecord).flatten

/-- The fixed fieldnames list of results_to_csv. -/
def headerFields : List String :=
  ["PO", "Lot", "PartType", "Plan", "ImplantName", "AP_Depth_B_mm", "ML_Width_A_mm",
   "Max_Cage_Height_C_mm", "PDF"]

/-- Decimal digits of the fractional part fr/den, as long division
produces them; fuelled (17 is ample for every value built by the float
parser from the captured literals). -/
def fracDigits : Nat → Nat → Nat → List Char
  | _, _, 0 => []
  | fr, den, fuel + 1 =>
      Char.ofNat (48 + fr * 10 / den) :: (if fr * 10 % den = 0 then [] else fracDigits (fr * 10 % den) den fuel)

/-- The str() rendering of a measurement value as the csv writer would
receive it: sign, integer part, point, fractional digits, with a
trailing ".0" on integral values as Python str(float) prints. -/
def fmtRat (q : Rat) : String :=
  (if q.num < 0 then "-" else "") ++ toString (q.num.natAbs / q.den) ++ "." ++
    (if q.num.natAbs % q.den = 0 then "0" else String.mk (fracDigits (q.num.natAbs % q.den) q.den 17))

/-- The nine field values of one row in the fixed field order. -/
def rowFields (r : Row) : List String :=
  [r.po, r.lot, r.partType, r.plan, r.implantName, fmtRat r.ap_depth_b_mm,
   fmtRat r.ml_width_a_mm, fmtRat r.max_cage_height_c_mm, r.pdf]

/-- results_to_csv: the header record then one record per row. -/
def results_to_csv (rows : List Row) : String :=
  String.mk (csvEncodeAll ((headerFields :: rows.map rowFields).map (fun rec => rec.map String.data)))

-- ===== a CSV reader, for the round-trip property =====

/-- Scan an unquoted field: everything up to the delimiter or the
record terminator. -/
def scanUnquoted : List Char → (List Char × List Char)
  | [] => ([], [])
  | c :: cs =>
      if c == ',' || c == '\r' then ([], c :: cs)
      else
        let (f, r) := scanUnquoted cs
        (c :: f, r)

/-- Scan a quoted field body: a doubled quote is one literal quote, a
single quote closes the field. -/
def scanQuoted : List Char → (List Char × List Char)
  | [] => ([], [])
  | c :: cs =>
      if c == '"' then
        match cs with
        | [] => ([], [])
        | c2 :: cs2 =>
            if c2 == '"' then
              let (f, r) := scanQuoted cs2
              ('"' :: f, r)
            else ([], c2 :: cs2)
      else
        let (f, r) := scanQuoted cs
        (c :: f, r)

def scanField (s : List Char) : (List Char × List Char) :=
  match s with
  | [] => scanUnquoted []
  | c :: cs => if c == '"' then scanQuoted cs else scanUnquoted (c :: cs)

/-- Parse the fields of one record; fuelled by the field count bound. -/
def parseFields : Nat → List Char → (List (List Char) × List Char)
  | 0, s => ([], s)
  | fuel + 1, s =>
      match scanField s with
      | (f, []) => ([f], [])
      | (f, c :: r2) =>
          if c == ',' then
            let (fs, rest) := parseFields fuel r2
            (f :: fs, rest)
          else if c == '\r' then
            match r2 with
            | '\n' :: r3 => ([f], r3)
            | _ => ([f], c :: r2)
          else ([f], c :: r2)

def parseRecords : Nat → List Char → List (List (List Char))
  | 0, _ => []
  | fuel + 1, s =>
      if s.isEmpty then []
      else
        (parseFields (s.length + 1) s).1 :: parseRecords fuel (parseFields (s.length + 1) s).2

/-- Standard CSV reading of exported text into records of string
fields. -/
def csvParse (s : String) : List (List String) :=
  (parseRecords (s.data.length + 1) s.data).map (fun rec => rec.map String.mk)

-- ===== the job state, its trace, and the shared JOBS mapping =====

/-- One entry of the JOBS mapping, with the keys /start initializes. -/
structure JobState where
  total : Nat
  processed : Nat
  done : Bool
  results : List Row
  csv : String
  error : Option String
deriving DecidableEq, Repr

/-- The entry as POST /start creates it. -/
def initJob : JobState := ⟨0, 0, false, [], "", none⟩

/-- Lock-guarded update: JOBS[job_id]["total"] = len(pdfs). -/
def setTotalUpd (n : Nat) (s : JobState) : JobState := { s with total := n }

/-- Lock-guarded update: JOBS[job_id]["processed"] = processed. -/
def setProcessedUpd (k : Nat) (s : JobState) : JobState := { s with processed := k }

/-- The final lock-guarded update of the success path: results, csv and
the done flag in one critical section. -/
def finishUpd (rows : List Row) (s : JobState) : JobState :=
  { s with results := rows, csv := results_to_csv rows, done := true }

/-- The update of the except branch: the error message and the done
flag, everything else untouched. -/
def errUpd (msg : String) (s : JobState) : JobState :=
  { s with error := some msg, done := true }

/-- The sequence of lock-guarded updates _run_job performs when no
exception occurs, given the rows each gathered pdf yields: total once
enumeration finished, processed after every file, then the finishing
update. -/
def successUpdates (pdfRows : List (List Row)) : List (JobState → JobState) :=
  setTotalUpd pdfRows.length
    :: ((List.range pdfRows.length).map (fun i => setProcessedUpd (i + 1))
        ++ [finishUpd pdfRows.flatten])

/-- The job states observable after each update in turn. -/
def statesAfter (s : JobState) : List (JobState → JobState) → List JobState
  | [] => []
  | u :: us => u s :: statesAfter (u s) us

/-- The full observable history of a job on the success path: the
/start initialization followed by the worker updates. -/
def jobTraceOk (pdfRows : List (List Row)) : List JobState :=
  initJob :: statesAfter initJob (successUpdates pdfRows)

/-- The observable history when an exception escapes the try body after
j of the lock-guarded updates have run (j = 0 is a failure during
directory enumeration): the except branch appends the single error
update. -/
def jobTraceErr (pdfRows : List (List Row)) (j : Nat) (msg : String) : List JobState :=
  initJob :: statesAfter initJob ((successUpdates pdfRows).take j ++ [errUpd msg])

/-- The shared JOBS mapping. -/
abbrev Jobs := List (String × JobState)

def lookupJob (jobs : Jobs) (id : String) : Option JobState :=
  (jobs.find? (fun e => e.1 == id)).map (fun e => e.2)

/-- The insertion POST /start performs under the lock before the worker
thread is started and before the id is returned. -/
def startInsert (jobs : Jobs) (id : String) : Jobs := (id, initJob) :: jobs

/-- A worker mutation of one entry: no entry is ever removed. -/
def updateJob (jobs : Jobs) (id : String) (f : JobState → JobState) : Jobs :=
  jobs.map (fun e => if e.1 == id then (e.1, f e.2) else e)

def applyWorker (jobs : Jobs) (id : String) (updates : List (JobState → JobState)) : Jobs :=
  updates.foldl (fun js u => updateJob js id u) jobs

/-- GET /progress: none models the not-found branch. -/
def progressResp (jobs : Jobs) (id : String) : Option (Nat × Nat × Bool × Option String) :=
  (lookupJob jobs id).map (fun s => (s.total, s.processed, s.done, s.error))

/-- GET /results: none models the not-found branch. -/
def resultsResp (jobs : Jobs) (id : String) : Option (List Row) :=
  (lookupJob jobs id).map (fun s => s.results)

/-- GET /download: none models the not-found branch. -/
def downloadResp (jobs : Jobs) (id : String) : Option String :=
  (lookupJob jobs id).map (fun s => s.csv)

-- ===== concrete scenario data =====

/-- The page text of the end-to-end scenario of the specification. -/
def scenarioText : String :=
  "FORM-019 ALIF\nAP Depth B (mm) 10.0 12.0 14.0\nML Width A (mm) 20.0 22.0 24.0\nMax Cage Height C (mm) 5.0 6.0 7.0\n"

/-- One organizational subfolder of the root with a single FORM-019
pdf. -/
def scenarioFsys : FileSys := [["root", "SUB1", "FORM-019.pdf"]]

/-- The external text extraction of the scenario: the single pdf has
one page with the scenario text. -/
def scenarioDocOf : List String → List String :=
  fun p => if p == ["root", "SUB1", "FORM-019.pdf"] then [scenarioText] else []

/-- Thresholds ap >= 11.0, the other two dimensions unset. -/
def scenarioTh : Thresholds := ⟨some 11, ">=", none, ">=", none, ">="⟩

/-- Thresholds with every dimension unset. -/
def openTh : Thresholds := ⟨none, ">=", none, ">=", none, ">="⟩

/-- A page text with implant names and a lot code, for witnesses. -/
def samplePageText : String :=
  "ALIF IMPLANT_NAME=AAA IMPLANT_NAME=BBB lot 123456.AB.?12\nAP Depth B (mm) 10.0 12.0 14.0\nML Width A (mm) 20.0 22.0 24.0\nMax Cage Height C (mm) 5.0 6.0 7.0\n"

-- ===== named job states and the invariant bundle =====

/-- The job state after enumeration set the total and k files were
processed. -/
def stProc (n k : Nat) : JobState := ⟨n, k, false, [], "", none⟩

/-- The job state after the finishing update of the success path. -/
def stDone (n : Nat) (rows : List Row) : JobState := ⟨n, n, true, rows, results_to_csv rows, none⟩

/-- The job state after the except branch ran. -/
def stFail (n k : Nat) (msg : String) : JobState := ⟨n, k, true, [], "", some msg⟩

/-- The invariants claimed of every observable job history: creation
state first; processed monotonically non-decreasing; processed never
above total; total either still zero or the enumerated count; nothing
recorded while total is zero; and the done flag set nowhere but in the
final state. -/
def jobInvariants (n : Nat) (t : List JobState) : Prop :=
  t.head? = some initJob
  ∧ List.Chain' (fun a b => a.processed ≤ b.processed) t
  ∧ (∀ s ∈ t, s.processed ≤ s.total)
  ∧ (∀ s ∈ t, s.total = 0 ∨ s.total = n)
  ∧ (∀ s ∈ t, s.total = 0 → s.processed = 0 ∧ s.results = [])
  ∧ (∀ s ∈ t.dropLast, s.done = false)

-- ===== sample data for witnesses =====

def samplePath : List String := ["base", "PO7", "FORM-019.pdf"]

/-- The first row the scanner emits for samplePageText with no
thresholds configured. -/
def sampleRow : Row :=
  { po := "PO7", lot := "123456.AB.?12", partType := "ALIF", plan := "Minus 01",
    implantName := "AAA", ap_depth_b_mm := 10, ml_width_a_mm := 20,
    max_cage_height_c_mm := 5, pdf := "base/PO7/FORM-019.pdf" }

-- ===== theorems =====

-- helper lemmas (shared) --

theorem strMk_data (s : String) : String.mk s.data = s := rfl

theorem strictlyUnder_first {root p : List String} (h : strictlyUnder root p = true) :
    root.isPrefixOf p = true := by
  unfold strictlyUnder at h
  exact (Bool.and_eq_true_iff.mp h).1

/-- Claim C1: a candidate row is admitted exactly when each of the three
measurement dimensions independently passes its configured comparison:
the ok-flag sequence of the scan loop equals the conjunction of the
three _cmp tests, an absent threshold always admits, the ">=" operator
admits when value >= threshold and the "<=" operator admits when
value <= threshold. -/
theorem threshold_filter_admit (th : Thresholds) (ap_v ml_v maxh_v : Rat) :
    rowOk th ap_v ml_v maxh_v
      = (_cmp ap_v th.ap_depth_b_mm th.ap_op && _cmp ml_v th.ml_width_a_mm th.ml_op
          && _cmp maxh_v th.max_cage_height_c_mm th.max_op)
    ∧ (∀ v : Rat, ∀ op : String, _cmp v none op = true)
    ∧ (∀ v t : Rat, _cmp v (some t) ">=" = decide (v ≥ t))
    ∧ (∀ v t : Rat, _cmp v (some t) "<=" = decide (v ≤ t)) := by
  refine ⟨?_, fun v op => rfl, fun v t => rfl, fun v t => rfl⟩
  unfold rowOk
  cases _cmp ap_v th.ap_depth_b_mm th.ap_op <;>
    cases _cmp ml_v th.ml_width_a_mm th.ml_op <;>
      cases _cmp maxh_v th.max_cage_height_c_mm th.max_op <;> rfl

/-- Claim C4, counterexample: a file below the root whose lowercase name
has the "form-19" substring but is not a pdf is in the set the claim
describes yet absent from the walker output, so the walker does not
produce exactly the name-substring set. -/
theorem walker_name_set_counterexample :
    find_form19_pdfs [["root", "form-19.txt"]] ["root"] = []
    ∧ specNameMatchFiles [["root", "form-19.txt"]] ["root"] = [["root", "form-19.txt"]] := by
  decide

/-- Claim C4, amended: the walker produces exactly the files below the
root that match the *.pdf glob and whose lowercase name has one of the
two FORM-19 substrings, and every produced path stays below the root. -/
theorem walker_exact_set (fsys : FileSys) (root : List String) :
    find_form19_pdfs fsys root
      = fsys.filter (fun p => strictlyUnder root p && pdfName p && hasForm19 (fileName p))
    ∧ (find_form19_pdfs fsys root).all (fun p => root.isPrefixOf p) = true := by
  constructor
  · unfold find_form19_pdfs
    rw [List.filter_filter]
    apply List.filter_congr
    intro p _
    cases strictlyUnder root p <;> cases pdfName p <;> cases hasForm19 (fileName p) <;> rfl
  · rw [List.all_eq_true]
    intro p hp
    unfold find_form19_pdfs at hp
    have h1 := (List.mem_filter.mp hp).1
    have h2 := (List.mem_filter.mp h1).2
    exact strictlyUnder_first (Bool.and_eq_true_iff.mp h2).1

/-- Claim C9: every path the walker returns matches the *.pdf glob, and
a concrete file whose name has the FORM-19 substring but lacks the .pdf
extension is excluded. -/
theorem walker_pdf_extension (fsys : FileSys) (root : List String) :
    (find_form19_pdfs fsys root).all (fun p => pdfName p) = true
    ∧ find_form19_pdfs [["base", "PO9", "FORM-19-report.doc"]] ["base"] = [] := by
  constructor
  · rw [List.all_eq_true]
    intro p hp
    unfold find_form19_pdfs at hp
    have h1 := (List.mem_filter.mp hp).1
    have h2 := (List.mem_filter.mp h1).2
    exact (Bool.and_eq_true_iff.mp h2).2
  · decide

set_option maxRecDepth 20000 in
/-- Claim C6: on the scenario filesystem (one organizational subfolder,
one FORM-019 pdf whose single page has the three measurement triplets
and the part type ALIF) with thresholds ap >= 11 and the other two
dimensions unset, the pipeline admits exactly the two rows labelled
Plan 02 and Plus 03 and excludes the Minus 01 row. -/
theorem end_to_end_scenario :
    runScan scenarioFsys scenarioDocOf ["root"] "ALIF" scenarioTh =
      [{ po := "", lot := "", partType := "ALIF", plan := "Plan 02", implantName := "",
         ap_depth_b_mm := 12, ml_width_a_mm := 22, max_cage_height_c_mm := 6,
         pdf := "root/SUB1/FORM-019.pdf" },
       { po := "", lot := "", partType := "ALIF", plan := "Plus 03", implantName := "",
         ap_depth_b_mm := 14, ml_width_a_mm := 24, max_cage_height_c_mm := 7,
         pdf := "root/SUB1/FORM-019.pdf" }]
    ∧ (runScan scenarioFsys scenarioDocOf ["root"] "ALIF" scenarioTh).map Row.plan
        = ["Plan 02", "Plus 03"]
    ∧ ((runScan scenarioFsys scenarioDocOf ["root"] "ALIF" scenarioTh).map Row.plan).contains
        "Minus 01" = false := by
  decide

/-- Claim C5: a page yields no row when text extraction yields no text,
when the part type is absent case-insensitively, or when any one of the
three measurement searches fails to produce its three numbers (a failed
pattern match or a failed numeric conversion), even if the other two
succeed; removing such a page from a document leaves the scan output
unchanged. -/
theorem pdf_scanner_page_skip (pdfPath : List String) (part_type : String) (th : Thresholds)
    (text : String)
    (h : text = ""
      ∨ listContains (lowerChars part_type.data) (lowerChars text.data) = false
      ∨ _parse_three_numbers (reSearch RE_AP text.data) = none
      ∨ _parse_three_numbers (reSearch RE_ML text.data) = none
      ∨ _parse_three_numbers (reSearch RE_MAX_H text.data) = none) :
    scanPage pdfPath part_type th text = []
    ∧ ∀ (pre post : List String),
        scan_pdf pdfPath (pre ++ text :: post) part_type th
          = scan_pdf pdfPath (pre ++ post) part_type th := by
  have hmain : scanPage pdfPath part_type th text = [] := by
    unfold scanPage
    rcases h with h | h | h | h | h
    · subst h; rfl
    · simp [h]
    · rw [h]
      cases text.data.isEmpty <;>
        cases listContains (lowerChars part_type.data) (lowerChars text.data) <;> simp
    · rw [h]
      cases text.data.isEmpty <;>
        cases listContains (lowerChars part_type.data) (lowerChars text.data) <;>
          cases _parse_three_numbers (reSearch RE_AP text.data) <;> simp
    · rw [h]
      cases text.data.isEmpty <;>
        cases listContains (lowerChars part_type.data) (lowerChars text.data) <;>
          cases _parse_three_numbers (reSearch RE_AP text.data) <;>
            cases _parse_three_numbers (reSearch RE_ML text.data) <;> simp
  refine ⟨hmain, fun pre post => ?_⟩
  unfold scan_pdf
  simp [hmain]

/-- Claim C5 witness: a page whose text lacks the part type is skipped. -/
theorem pdf_scanner_page_skip_witness :
    listContains (lowerChars "ALIF".data) (lowerChars "hi there".data) = false
    ∧ scanPage ["f.pdf"] "ALIF" openTh "hi there" = [] :=
  ⟨by decide,
   (pdf_scanner_page_skip ["f.pdf"] "ALIF" openTh "hi there" (Or.inr (Or.inl (by decide)))).1⟩

/-- Claim C8: every row a page emits carries the single lot code of the
page (the one pattern search over the text, empty if no match), and its
implant name is the occurrence of the implant-name pattern at the same
position index among all occurrences on the page, empty when the page
has fewer occurrences. -/
theorem per_index_identifiers (pdfPath : List String) (part_type : String) (th : Thresholds)
    (text : String) :
    ∀ r ∈ scanPage pdfPath part_type th text,
      r.lot = lotOf text
      ∧ ∃ idx, idx < 3 ∧ r.plan = PLAN_LABELS idx ∧ r.implantName = implantAt text idx := by
  intro r hr
  unfold scanPage at hr
  split at hr
  · simp at hr
  split at hr
  · simp at hr
  split at hr
  case _ ap ml mh _ =>
    rw [List.mem_filterMap] at hr
    obtain ⟨idx, hidx, hfr⟩ := hr
    split at hfr
    · cases hfr
      refine ⟨rfl, idx, ?_, rfl, rfl⟩
      simp at hidx
      rcases hidx with h | h | h <;> subst h <;> decide
    · simp at hfr
  · simp at hr

set_option maxRecDepth 20000 in
/-- Claim C8 witness: the Minus 01 row of the sample page carries the
lot of the page and the index-0 implant name. -/
theorem per_index_identifiers_witness :
    sampleRow ∈ scanPage samplePath "ALIF" openTh samplePageText
    ∧ (sampleRow.lot = lotOf samplePageText
        ∧ ∃ idx, idx < 3 ∧ sampleRow.plan = PLAN_LABELS idx
            ∧ sampleRow.implantName = implantAt samplePageText idx) :=
  ⟨by decide, per_index_identifiers samplePath "ALIF" openTh samplePageText sampleRow (by decide)⟩

-- lookup lemmas for the JOBS mapping --

theorem lookupJob_cons (e : String × JobState) (es : Jobs) (id : String) :
    lookupJob (e :: es) id = if e.1 == id then some e.2 else lookupJob es id := by
  unfold lookupJob
  cases h : e.1 == id <;> simp [List.find?, h]

theorem updateJob_cons (e : String × JobState) (es : Jobs) (id : String) (f : JobState → JobState) :
    updateJob (e :: es) id f = (if e.1 == id then (e.1, f e.2) else e) :: updateJob es id f := rfl

theorem lookup_update_isSome (js : Jobs) (id2 id3 : String) (f : JobState → JobState) :
    (lookupJob (updateJob js id2 f) id3).isSome = (lookupJob js id3).isSome := by
  induction js with
  | nil => rfl
  | cons e es ih =>
      rw [updateJob_cons, lookupJob_cons, lookupJob_cons]
      cases h2 : e.1 == id2 <;> cases h3 : e.1 == id3 <;> simp [h2, h3, ih]

theorem applyWorker_isSome (updates : List (JobState → JobState)) (js : Jobs) (id : String) :
    (lookupJob (applyWorker js id updates) id).isSome = (lookupJob js id).isSome := by
  induction updates generalizing js with
  | nil => rfl
  | cons u us ih =>
      have hstep : applyWorker js id (u :: us) = applyWorker (updateJob js id u) id us := rfl
      rw [hstep, ih, lookup_update_isSome]

/-- Claim C10: the /start insertion puts the fully initialized entry
into the mapping handed to the worker and returned to the client, so
the entry is found with the initial state; after any sequence of worker
mutations the entry is still present (mutations never remove a key), so
the dictionary lookups of the worker cannot fail and the progress,
results and download endpoints never take the not-found branch for an
id the start handler returned. -/
theorem job_entry_persistence (jobs : Jobs) (id : String)
    (updates : List (JobState → JobState)) :
    lookupJob (startInsert jobs id) id = some initJob
    ∧ (lookupJob (applyWorker (startInsert jobs id) id updates) id).isSome = true
    ∧ (progressResp (applyWorker (startInsert jobs id) id updates) id).isSome = true
    ∧ (resultsResp (applyWorker (startInsert jobs id) id updates) id).isSome = true
    ∧ (downloadResp (applyWorker (startInsert jobs id) id updates) id).isSome = true
    ∧ (∀ (js : Jobs) (id2 : String) (f : JobState → JobState) (id3 : String),
        (lookupJob (updateJob js id2 f) id3).isSome = (lookupJob js id3).isSome) := by
  have hfirst : lookupJob (startInsert jobs id) id = some initJob := by
    rw [startInsert, lookupJob_cons]
    simp
  have hsome : (lookupJob (applyWorker (startInsert jobs id) id updates) id).isSome = true := by
    rw [applyWorker_isSome, hfirst]
    rfl
  obtain ⟨s, hs⟩ := Option.isSome_iff_exists.mp hsome
  refine ⟨hfirst, hsome, ?_, ?_, ?_, fun js id2 f id3 => lookup_update_isSome js id2 id3 f⟩
  · rw [progressResp, hs]; rfl
  · rw [resultsResp, hs]; rfl
  · rw [downloadResp, hs]; rfl

-- job trace closed forms --

theorem statesAfter_cons (s : JobState) (u : JobState → JobState)
    (us : List (JobState → JobState)) :
    statesAfter s (u :: us) = u s :: statesAfter (u s) us := rfl

theorem statesAfter_append (us vs : List (JobState → JobState)) :
    ∀ s, statesAfter s (us ++ vs)
      = statesAfter s us ++ statesAfter (us.foldl (fun a u => u a) s) vs := by
  induction us with
  | nil => intro s; rfl
  | cons u us ih =>
      intro s
      rw [List.cons_append, statesAfter_cons, statesAfter_cons, ih, List.foldl_cons]
      rfl

theorem statesAfter_proc : ∀ (b a : Nat) (st : JobState),
    statesAfter st ((List.range' a b).map (fun i => setProcessedUpd (i + 1)))
      = (List.range' a b).map (fun i => { st with processed := i + 1 }) := by
  intro b
  induction b with
  | zero => intro a st; rfl
  | succ m ih =>
      intro a st
      rw [List.range'_succ]
      rw [List.map_cons, statesAfter_cons, ih, List.map_cons]
      rfl

theorem foldl_proc : ∀ (b a : Nat) (st : JobState),
    ((List.range' a b).map (fun i => setProcessedUpd (i + 1))).foldl (fun x u => u x) st
      = { st with processed := if b = 0 then st.processed else a + b } := by
  intro b
  induction b with
  | zero => intro a st; rfl
  | succ m ih =>
      intro a st
      rw [List.range'_succ]
      rw [List.map_cons, List.foldl_cons, ih]
      cases m with
      | zero => rfl
      | succ m2 =>
          have h : a + 1 + (m2 + 1) = a + (m2 + 1 + 1) := by omega
          simp only [setProcessedUpd, Nat.succ_ne_zero, if_false, h]

theorem foldl_proc0 (b n : Nat) :
    ((List.range' 0 b).map (fun i => setProcessedUpd (i + 1))).foldl (fun x u => u x) (stProc n 0)
      = stProc n b := by
  rw [foldl_proc]
  cases b with
  | zero => rfl
  | succ m => simp [stProc, Nat.zero_add]

theorem take_range'_le : ∀ (k b a : Nat), k ≤ b → (List.range' a b).take k = List.range' a k := by
  intro k
  induction k with
  | zero => intro b a _; rfl
  | succ m ih =>
      intro b a h
      cases b with
      | zero => omega
      | succ b2 =>
          rw [List.range'_succ, List.take_succ_cons, ih b2 (a + 1) (by omega), List.range'_succ]

theorem jobTraceOk_eq (pdfRows : List (List Row)) :
    jobTraceOk pdfRows
      = initJob :: stProc pdfRows.length 0
          :: ((List.range' 0 pdfRows.length).map (fun i => stProc pdfRows.length (i + 1))
              ++ [stDone pdfRows.length pdfRows.flatten]) := by
  unfold jobTraceOk successUpdates
  rw [List.range_eq_range', statesAfter_cons]
  have h0 : setTotalUpd pdfRows.length initJob = stProc pdfRows.length 0 := rfl
  rw [h0, statesAfter_append, statesAfter_proc, foldl_proc0]
  rfl

theorem jobTraceErr_eq_zero (pdfRows : List (List Row)) (msg : String) :
    jobTraceErr pdfRows 0 msg = [initJob, stFail 0 0 msg] := rfl

theorem jobTraceErr_eq_succ (pdfRows : List (List Row)) (k : Nat) (msg : String)
    (hk : k ≤ pdfRows.length) :
    jobTraceErr pdfRows (k + 1) msg
      = initJob :: stProc pdfRows.length 0
          :: ((List.range' 0 k).map (fun i => stProc pdfRows.length (i + 1))
              ++ [stFail pdfRows.length k msg]) := by
  unfold jobTraceErr successUpdates
  rw [List.range_eq_range', List.take_succ_cons]
  rw [List.take_append_of_le_length (by rw [List.length_map, List.length_range']; exact hk)]
  rw [← List.map_take, take_range'_le k pdfRows.length 0 hk]
  rw [List.cons_append, statesAfter_cons]
  have h0 : setTotalUpd pdfRows.length initJob = stProc pdfRows.length 0 := rfl
  rw [h0, statesAfter_append, statesAfter_proc, foldl_proc0]
  rfl

theorem chain'_le_range' : ∀ (b a : Nat), List.Chain' (fun i j : Nat => i ≤ j) (List.range' a b) := by
  intro b
  induction b with
  | zero => intro a; exact List.chain'_nil
  | succ m ih =>
      intro a
      rw [List.range'_succ, List.chain'_cons']
      refine ⟨?_, ih (a + 1)⟩
      intro y hy
      cases m with
      | zero => simp at hy
      | succ m2 =>
          rw [List.range'_succ] at hy
          simp at hy
          omega

theorem mem_shape {s : JobState} {n b : Nat} {last : JobState}
    (hs : s ∈ initJob :: stProc n 0 :: ((List.range' 0 b).map (fun i => stProc n (i + 1)) ++ [last])) :
    s = initJob ∨ s = stProc n 0 ∨ (∃ i, i < b ∧ s = stProc n (i + 1)) ∨ s = last := by
  simp only [List.mem_cons, List.mem_append, List.mem_map] at hs
  rcases hs with h | h | ⟨i, hi, h⟩ | h
  · exact Or.inl h
  · exact Or.inr (Or.inl h)
  · refine Or.inr (Or.inr (Or.inl ⟨i, ?_, h.symm⟩))
    have := List.mem_range'.mp hi
    omega
  · simp at h
    exact Or.inr (Or.inr (Or.inr h))

theorem invariants_shape (n b : Nat) (last : JobState) (hb : b ≤ n)
    (hl_tot : last.total = n) (hl_lo : b ≤ last.processed) (hl_hi : last.processed ≤ n)
    (hl_zero : last.total = 0 → last.processed = 0 ∧ last.results = []) :
    jobInvariants n (initJob :: stProc n 0
      :: ((List.range' 0 b).map (fun i => stProc n (i + 1)) ++ [last])) := by
  unfold jobInvariants
  refine ⟨rfl, ?_, ?_, ?_, ?_, ?_⟩
  · rw [List.chain'_cons]
    refine ⟨le_rfl, ?_⟩
    rw [List.chain'_cons']
    refine ⟨fun y _ => Nat.zero_le _, ?_⟩
    rw [List.chain'_append]
    refine ⟨?_, List.chain'_singleton _, ?_⟩
    · rw [List.chain'_map]
      exact (chain'_le_range' b 0).imp (fun i j h => Nat.succ_le_succ h)
    · intro x hx y hy
      rw [List.getLast?_map] at hx
      cases hgl : (List.range' 0 b).getLast? with
      | none => rw [hgl] at hx; simp at hx
      | some v =>
          rw [hgl] at hx
          simp at hx hy
          subst hx
          subst hy
          rw [List.getLast?_range'] at hgl
          split at hgl
          · exact absurd hgl (by simp)
          · have hv : v = 0 + b - 1 := by
              have := Option.some.inj hgl
              omega
            have hp : (stProc n (v + 1)).processed = v + 1 := rfl
            rw [hp]
            omega
  · intro s hs
    rcases mem_shape hs with h | h | ⟨i, hi, h⟩ | h <;> subst h
    · exact le_rfl
    · exact Nat.zero_le n
    · exact (Nat.succ_le_of_lt (Nat.lt_of_lt_of_le hi hb) : i + 1 ≤ n)
    · rw [hl_tot]; exact hl_hi
  · intro s hs
    rcases mem_shape hs with h | h | ⟨i, hi, h⟩ | h <;> subst h
    · exact Or.inl rfl
    · exact Or.inr rfl
    · exact Or.inr rfl
    · exact Or.inr hl_tot
  · intro s hs
    rcases mem_shape hs with h | h | ⟨i, hi, h⟩ | h <;> subst h
    · exact fun _ => ⟨rfl, rfl⟩
    · exact fun _ => ⟨rfl, rfl⟩
    · intro htot
      have : n = 0 := htot
      omega
    · exact hl_zero
  · have hre : (initJob :: stProc n 0
        :: ((List.range' 0 b).map (fun i => stProc n (i + 1)) ++ [last]))
        = (initJob :: stProc n 0 :: (List.range' 0 b).map (fun i => stProc n (i + 1))) ++ [last] := by
      simp
    rw [hre, List.dropLast_concat]
    intro s hs
    simp only [List.mem_cons, List.mem_map] at hs
    rcases hs with h | h | ⟨i, _, h⟩ <;> subst h <;> rfl

/-- Claim C2: on every observable history of a job, both on the success
path and on the error path (the exception escaping after any number j
of completed lock-guarded updates), the state starts at total = 0,
processed = 0, done = false; processed is monotonically non-decreasing
and never exceeds total; total is zero until enumeration records the
file count and nothing is processed or recorded while it is zero; and
the done flag is set only in the final state, after which no mutation
occurs. -/
theorem job_state_invariants (pdfRows : List (List Row)) (j : Nat) (msg : String)
    (hj : j ≤ pdfRows.length + 1) :
    jobInvariants pdfRows.length (jobTraceOk pdfRows)
    ∧ jobInvariants pdfRows.length (jobTraceErr pdfRows j msg) := by
  constructor
  · rw [jobTraceOk_eq]
    refine invariants_shape _ _ _ le_rfl rfl le_rfl le_rfl ?_
    intro h
    have hn : pdfRows.length = 0 := h
    refine ⟨hn, ?_⟩
    have : pdfRows = [] := List.length_eq_zero.mp hn
    subst this
    rfl
  · cases j with
    | zero =>
        rw [jobTraceErr_eq_zero]
        unfold jobInvariants
        refine ⟨rfl, ?_, ?_, ?_, ?_, ?_⟩
        · rw [List.chain'_cons]
          exact ⟨le_rfl, List.chain'_singleton _⟩
        · intro s hs
          simp at hs
          rcases hs with h | h <;> subst h <;> exact le_rfl
        · intro s hs
          simp at hs
          rcases hs with h | h <;> subst h <;> exact Or.inl rfl
        · intro s hs
          simp at hs
          rcases hs with h | h <;> subst h <;> exact fun _ => ⟨rfl, rfl⟩
        · intro s hs
          simp at hs
          subst hs
          rfl
    | succ k =>
        have hk : k ≤ pdfRows.length := by omega
        rw [jobTraceErr_eq_succ pdfRows k msg hk]
        refine invariants_shape _ _ _ hk rfl le_rfl hk ?_
        intro h
        have hn : pdfRows.length = 0 := h
        exact ⟨show k = 0 by omega, rfl⟩

/-- Claim C2 witness: the invariants hold for the one-file job whose
scan yields no rows, with the exception cutting in after the first
update. -/
theorem job_state_invariants_witness :
    (1 ≤ ([[]] : List (List Row)).length + 1)
    ∧ (jobInvariants ([[]] : List (List Row)).length (jobTraceOk [[]])
        ∧ jobInvariants ([[]] : List (List Row)).length (jobTraceErr [[]] 1 "boom")) :=
  ⟨by omega, job_state_invariants [[]] 1 "boom" (by omega)⟩

/-- Claim C3: when an exception escapes the scan loop after any number
of completed lock-guarded updates, the job history ends with the single
update of the except branch: the final state records the message in the
error field, is marked done, and keeps the results list and csv payload
as initialized (empty), so the rows gathered before the failure are
discarded; every earlier state is neither done nor carries an error. -/
theorem orchestrator_error_path (pdfRows : List (List Row)) (j : Nat) (msg : String)
    (hj : j ≤ pdfRows.length + 1) :
    ∃ s, (jobTraceErr pdfRows j msg).getLast? = some s
      ∧ s.error = some msg ∧ s.done = true ∧ s.results = [] ∧ s.csv = ""
      ∧ ∀ x ∈ (jobTraceErr pdfRows j msg).dropLast, x.done = false ∧ x.error = none := by
  cases j with
  | zero =>
      rw [jobTraceErr_eq_zero]
      refine ⟨stFail 0 0 msg, rfl, rfl, rfl, rfl, rfl, ?_⟩
      intro x hx
      simp at hx
      subst hx
      exact ⟨rfl, rfl⟩
  | succ k =>
      have hk : k ≤ pdfRows.length := by omega
      rw [jobTraceErr_eq_succ pdfRows k msg hk]
      have hre : (initJob :: stProc pdfRows.length 0
          :: ((List.range' 0 k).map (fun i => stProc pdfRows.length (i + 1))
              ++ [stFail pdfRows.length k msg]))
          = (initJob :: stProc pdfRows.length 0
              :: (List.range' 0 k).map (fun i => stProc pdfRows.length (i + 1)))
            ++ [stFail pdfRows.length k msg] := by simp
      rw [hre, List.getLast?_concat, List.dropLast_concat]
      refine ⟨stFail pdfRows.length k msg, rfl, rfl, rfl, rfl, rfl, ?_⟩
      intro x hx
      simp only [List.mem_cons, List.mem_map] at hx
      rcases hx with h | h | ⟨i, _, h⟩ <;> subst h <;> exact ⟨rfl, rfl⟩

/-- Claim C3 witness: a one-file job whose scan gathered a row still
ends with empty results and csv when the exception cuts in. -/
theorem orchestrator_error_path_witness :
    (1 ≤ ([[sampleRow]] : List (List Row)).length + 1)
    ∧ ∃ s, (jobTraceErr [[sampleRow]] 1 "kaput").getLast? = some s
        ∧ s.error = some "kaput" ∧ s.done = true ∧ s.results = [] ∧ s.csv = ""
        ∧ ∀ x ∈ (jobTraceErr [[sampleRow]] 1 "kaput").dropLast, x.done = false ∧ x.error = none :=
  ⟨by omega, orchestrator_error_path [[sampleRow]] 1 "kaput" (by omega)⟩

-- CSV round-trip lemmas --

theorem scanUnquoted_encode (s : List Char) (r : List Char)
    (hs : s.all (fun c => !specialChar c) = true)
    (hr : r = [] ∨ ∃ c t, r = c :: t ∧ (c = ',' ∨ c = '\r')) :
    scanUnquoted (s ++ r) = (s, r) := by
  induction s with
  | nil =>
      rcases hr with h | ⟨c, t, h, hc⟩
      · subst h; rfl
      · subst h
        rw [List.nil_append]
        unfold scanUnquoted
        rcases hc with hc | hc <;> subst hc <;> simp
  | cons c cs ih =>
      rw [List.all_cons] at hs
      have h1 := (Bool.and_eq_true_iff.mp hs).1
      have h2 := (Bool.and_eq_true_iff.mp hs).2
      simp only [specialChar, Bool.not_eq_true', Bool.or_eq_false_iff] at h1
      rw [List.cons_append]
      unfold scanUnquoted
      rw [Bool.or_eq_false_iff.mpr ⟨h1.1.1.1, h1.1.2⟩]
      rw [ih h2]
      simp

theorem scanQuoted_encode (s : List Char) (r : List Char)
    (hr : ∀ c t, r = c :: t → (c == '"') = false) :
    scanQuoted (escapeQuotes s ++ ('"' :: r)) = (s, r) := by
  induction s with
  | nil =>
      rw [show escapeQuotes [] = [] from rfl, List.nil_append]
      cases r with
      | nil => rfl
      | cons c t =>
          have h := hr c t rfl
          unfold scanQuoted
          simp [h]
  | cons c cs ih =>
      unfold escapeQuotes
      cases hc : c == '"' with
      | true =>
          have hc2 : c = '"' := eq_of_beq hc
          subst hc2
          rw [if_pos rfl, List.cons_append, List.cons_append]
          unfold scanQuoted
          simp only [beq_self_eq_true, if_true]
          rw [ih]
      | false =>
          rw [if_neg (by simp [hc]), List.cons_append]
          unfold scanQuoted
          simp only [hc, Bool.false_eq_true, if_false]
          rw [ih]

theorem scanField_encode (f : List Char) (r : List Char)
    (hr : r = [] ∨ ∃ c t, r = c :: t ∧ (c = ',' ∨ c = '\r')) :
    scanField (encodeField f ++ r) = (f, r) := by
  have hrq : ∀ c t, r = c :: t → (c == '"') = false := by
    intro c t hct
    rcases hr with h | ⟨c2, t2, h, hc2⟩
    · rw [h] at hct; exact absurd hct (by simp)
    · rw [h] at hct
      have hc : c2 = c := (List.cons.inj hct).1
      subst hc
      rcases hc2 with h2 | h2 <;> subst h2 <;> rfl
  unfold encodeField
  cases hq : f.any specialChar with
  | true =>
      rw [if_pos rfl]
      rw [List.cons_append, List.append_assoc]
      unfold scanField
      simp only [beq_self_eq_true, if_true]
      rw [show ['"'] ++ r = '"' :: r from rfl]
      exact scanQuoted_encode f r hrq
  | false =>
      rw [if_neg (by simp)]
      have hall : f.all (fun c => !specialChar c) = true := by
        rw [List.all_eq_true]
        intro x hx
        have hx2 : specialChar x = false := by
          have := List.any_eq_false.mp hq x hx
          simpa using this
        simp [hx2]
      cases f with
      | nil =>
          rcases hr with h | ⟨c, t, h, hc⟩
          · subst h; rfl
          · subst h
            rw [List.nil_append]
            have h := hrq c t rfl
            unfold scanField
            simp only [h, Bool.false_eq_true, if_false]
            unfold scanUnquoted
            rcases hc with h2 | h2 <;> subst h2 <;> simp
      | cons c cs =>
          rw [List.cons_append]
          have hcs : specialChar c = false := by
            have := List.any_eq_false.mp hq c (by simp)
            simpa using this
          have hcq : (c == '"') = false := by
            simp only [specialChar, Bool.or_eq_false_iff] at hcs
            exact hcs.1.1.2
          unfold scanField
          simp only [hcq, Bool.false_eq_true, if_false]
          rw [← List.cons_append]
          exact scanUnquoted_encode (c :: cs) r hall hr

theorem joinComma_length (l : List (List Char)) : l.length ≤ (joinComma l).length + 1 := by
  induction l with
  | nil => simp [joinComma]
  | cons f fs ih =>
      cases fs with
      | nil => simp [joinComma]
      | cons g gs =>
          rw [show joinComma (f :: g :: gs) = f ++ ',' :: joinComma (g :: gs) from rfl]
          simp only [List.length_append, List.length_cons] at ih ⊢
          omega

theorem parseFields_encode : ∀ (fields : List (List Char)) (rest : List Char) (fuel : Nat),
    fields ≠ [] → fields.length ≤ fuel →
    parseFields fuel (joinComma (fields.map encodeField) ++ ('\r' :: '\n' :: rest))
      = (fields, rest) := by
  intro fields
  induction fields with
  | nil => intro rest fuel h _; exact absurd rfl h
  | cons f fs ih =>
      intro rest fuel _ hfuel
      cases fuel with
      | zero => simp at hfuel
      | succ fuel2 =>
          cases fs with
          | nil =>
              rw [show joinComma ([f].map encodeField) = encodeField f from rfl]
              unfold parseFields
              rw [scanField_encode f ('\r' :: '\n' :: rest)
                    (Or.inr ⟨'\r', '\n' :: rest, rfl, Or.inr rfl⟩)]
              simp
          | cons g gs =>
              rw [show joinComma ((f :: g :: gs).map encodeField)
                    = encodeField f ++ ',' :: joinComma ((g :: gs).map encodeField) from rfl]
              rw [List.append_assoc, List.cons_append]
              unfold parseFields
              rw [scanField_encode f
                    (',' :: (joinComma ((g :: gs).map encodeField) ++ ('\r' :: '\n' :: rest)))
                    (Or.inr ⟨',', _, rfl, Or.inl rfl⟩)]
              have hih := ih rest fuel2 (by simp) (by simp at hfuel ⊢; omega)
              simp only [beq_self_eq_true, if_true]
              rw [hih]

theorem csvEncodeAll_length (recs : List (List (List Char))) :
    recs.length ≤ (csvEncodeAll recs).length := by
  induction recs with
  | nil => simp [csvEncodeAll]
  | cons rec rest ih =>
      rw [show csvEncodeAll (rec :: rest) = encodeRecord rec ++ csvEncodeAll rest from rfl]
      rw [List.length_cons, List.length_append]
      have h2 : 1 ≤ (encodeRecord rec).length := by
        unfold encodeRecord
        rw [List.length_append]
        simp
      omega

theorem parseRecords_encode : ∀ (recs : List (List (List Char))) (fuel : Nat),
    (∀ rec ∈ recs, rec ≠ []) → recs.length ≤ fuel →
    parseRecords fuel (csvEncodeAll recs) = recs := by
  intro recs
  induction recs with
  | nil =>
      intro fuel _ _
      cases fuel with
      | zero => rfl
      | succ f2 => rfl
  | cons rec rest ih =>
      intro fuel hne hfuel
      cases fuel with
      | zero => simp at hfuel
      | succ fuel2 =>
          have hs : csvEncodeAll (rec :: rest)
              = joinComma (rec.map encodeField) ++ ('\r' :: '\n' :: csvEncodeAll rest) := by
            rw [show csvEncodeAll (rec :: rest) = encodeRecord rec ++ csvEncodeAll rest from rfl]
            unfold encodeRecord
            rw [List.append_assoc]
            rfl
          rw [hs]
          unfold parseRecords
          have hne2 : (joinComma (rec.map encodeField)
              ++ ('\r' :: '\n' :: csvEncodeAll rest)).isEmpty = false := by
            rw [List.isEmpty_eq_false]
            simp
          rw [hne2]
          simp only [Bool.false_eq_true, if_false]
          have hlen : rec.length
              ≤ (joinComma (rec.map encodeField) ++ ('\r' :: '\n' :: csvEncodeAll rest)).length + 1 := by
            have hj := joinComma_length (rec.map encodeField)
            rw [List.length_map] at hj
            rw [List.length_append]
            omega
          rw [parseFields_encode rec (csvEncodeAll rest) _ (hne rec (by simp)) hlen]
          have hrest := ih fuel2 (fun r hr => hne r (by simp [hr])) (by simp at hfuel ⊢; omega)
          rw [hrest]

/-- Claim C7: exporting any row list and re-reading the delimited text
recovers exactly the fixed nine-name header record followed by one
record per input row, each field the string representation of the
source field in the fixed order, with standard quoting undone; hence
one data row per input (the record count is the row count plus one) and
the header is always the first record.  The exporter is a pure
function, so equal row lists yield byte-identical text. -/
theorem result_exporter_roundtrip (rows : List Row) :
    csvParse (results_to_csv rows) = headerFields :: rows.map rowFields
    ∧ (csvParse (results_to_csv rows)).length = rows.length + 1
    ∧ (csvParse (results_to_csv rows)).head? = some headerFields := by
  have hd : ∀ l : List Char, (String.mk l).data = l := fun l => rfl
  have hmain : csvParse (results_to_csv rows) = headerFields :: rows.map rowFields := by
    unfold csvParse results_to_csv
    rw [hd]
    have hne : ∀ rec ∈ (headerFields :: rows.map rowFields).map (fun rec => rec.map String.data),
        rec ≠ [] := by
      intro rec hrec
      rw [List.mem_map] at hrec
      obtain ⟨orig, horig, hor⟩ := hrec
      subst hor
      simp only [List.mem_cons, List.mem_map] at horig
      rcases horig with h | ⟨r, _, h⟩ <;> subst h <;> simp [headerFields, rowFields]
    have hfuel : ((headerFields :: rows.map rowFields).map (fun rec => rec.map String.data)).length
        ≤ (csvEncodeAll ((headerFields :: rows.map rowFields).map (fun rec => rec.map String.data))).length
          + 1 := by
      have := csvEncodeAll_length
        ((headerFields :: rows.map rowFields).map (fun rec => rec.map String.data))
      omega
    rw [parseRecords_encode _ _ hne hfuel]
    rw [List.map_map]
    have hid : ((fun rec : List (List Char) => rec.map String.mk)
        ∘ fun rec : List String => rec.map String.data) = id := by
      funext rec
      simp only [Function.comp]
      rw [List.map_map]
      have h2 : (String.mk ∘ String.data) = id := funext (fun s => rfl)
      rw [h2, List.map_id]
      rfl
    rw [hid, List.map_id]
  refine ⟨hmain, ?_, ?_⟩
  · rw [hmain]
    simp
  · rw [hmain]
    rfl
